import Mathlib
namespace CueHub
/-!
Verification development for the CueHub offline-sync subsystem.

Part 1 models the authoritative server's conflict-aware update endpoint
(`app.put('/api/cues/:id')` in the Express server): the cue record, the
request body, the per-field three-way merge loop, and the write paths.

Part 2 models the desktop client's `SyncEngine` (journal deduplication,
replay status handling, synced-marking) and `AppDatabase`'s change-log
operations.

All definitions are translated from the repository's source; machine
values that may be absent in JavaScript/Swift (`undefined` / `nil`) are
modelled as `Option`.
-/
/-- The ten mergeable cue fields, exactly the server's `mergeFields` list. -/
inductive Field
  | start_time
  | end_time
  | dialog
  | character_id
  | reel
  | scene
  | cue_name
  | notes
  | status
  | priority
deriving DecidableEq, Repr
/-- Order of the server's `mergeFields` array. -/
def mergeFields : List Field :=
  [.start_time, .end_time, .dialog, .character_id,
   .reel, .scene, .cue_name, .notes, .status, .priority]
/-- A stored cue row (`cues` table): every mergeable column is a non-null
string (columns are NOT NULL or defaulted), plus the two timestamps. -/
structure Cue where
  reel : String
  scene : String
  cue_name : String
  start_time : String
  end_time : String
  dialog : String
  character_id : String
  notes : String
  status : String
  priority : String
  created_at : String
  updated_at : String
deriving DecidableEq, Repr
/-- Access a stored cue's mergeable column. -/
def Cue.get (c : Cue) : Field → String
  | .start_time => c.start_time
  | .end_time => c.end_time
  | .dialog => c.dialog
  | .character_id => c.character_id
  | .reel => c.reel
  | .scene => c.scene
  | .cue_name => c.cue_name
  | .notes => c.notes
  | .status => c.status
  | .priority => c.priority
/-- The `baseCue` snapshot sent in a PUT body. It arrives as JSON, so every
field may be absent (the handler reads `baseCue[field] ?? ''`). -/
structure BaseCue where
  start_time : Option String := none
  end_time : Option String := none
  dialog : Option String := none
  character_id : Option String := none
  reel : Option String := none
  scene : Option String := none
  cue_name : Option String := none
  notes : Option String := none
  status : Option String := none
  priority : Option String := none
deriving DecidableEq, Repr
/-- Access a base-snapshot field (may be absent). -/
def BaseCue.get (b : BaseCue) : Field → Option String
  | .start_time => b.start_time
  | .end_time => b.end_time
  | .dialog => b.dialog
  | .character_id => b.character_id
  | .reel => b.reel
  | .scene => b.scene
  | .cue_name => b.cue_name
  | .notes => b.notes
  | .status => b.status
  | .priority => b.priority
/-- A PUT `/api/cues/:id` request body (`Partial<Cue>` plus `updated_at`
and `baseCue`); absent JSON members are `none`. -/
structure PutBody where
  start_time : Option String := none
  end_time : Option String := none
  dialog : Option String := none
  character_id : Option String := none
  reel : Option String := none
  scene : Option String := none
  cue_name : Option String := none
  notes : Option String := none
  status : Option String := none
  priority : Option String := none
  updated_at : Option String := none
  baseCue : Option BaseCue := none
deriving DecidableEq, Repr
/-- The handler's `mine` object: the four required fields are taken from the
body as-is (possibly `undefined`), the six optional ones default to the
existing row's value (`?? existing.*`). -/
def mineOf (body : PutBody) (existing : Cue) : Field → Option String
  | .start_time => body.start_time
  | .end_time => body.end_time
  | .dialog => body.dialog
  | .character_id => body.character_id
  | .reel => some (body.reel.getD existing.reel)
  | .scene => some (body.scene.getD existing.scene)
  | .cue_name => some (body.cue_name.getD existing.cue_name)
  | .notes => some (body.notes.getD existing.notes)
  | .status => some (body.status.getD existing.status)
  | .priority => some (body.priority.getD existing.priority)
/-- JavaScript truthiness for the `updated_at` request member:
`!updated_at` holds when it is absent/null or the empty string. -/
def isFalsy : Option String → Bool
  | none => true
  | some s => s = ""
/-- Outcome of the three-way comparison for one field, mirroring the four
branches of the server's merge loop. -/
inductive MergeDecision
  | takeTheirs
  | takeMine
  | bothSame
  | conflict
deriving DecidableEq, Repr
/-- The merge loop's branch condition for one field, comparing
`String(baseCue[field] ?? '')`, `String(mine[field] ?? '')` and
`String(theirs[field] ?? '')` (the stored value is always a string). -/
def fieldDecision (base : BaseCue) (mine : Field → Option String)
    (theirs : Cue) (f : Field) : MergeDecision :=
  let baseVal := (base.get f).getD ""
  let mineVal := (mine f).getD ""
  let theirsVal := theirs.get f
  if mineVal = baseVal then .takeTheirs
  else if theirsVal = baseVal then .takeMine
  else if mineVal = theirsVal then .bothSame
  else .conflict
/-- The value the merge loop writes into `merged[field]` for a
non-conflicting field: the stored `theirs[field]` in the take-theirs branch,
the raw `mine[field]` otherwise. -/
def fieldValue (base : BaseCue) (mine : Field → Option String)
    (theirs : Cue) (f : Field) : Option String :=
  match fieldDecision base mine theirs f with
  | .takeTheirs => some (theirs.get f)
  | _ => mine f
/-- Accumulated state of the merge loop: the partially built `merged`
object (a JS object, so a key may be absent), and the two field-name
accumulator arrays. -/
structure MergeState where
  merged : Field → Option (Option String)
  mergedFields : List Field
  conflictingFields : List Field
/-- Assign one key of the `merged` object. -/
def setField (g : Field → Option (Option String)) (f : Field)
    (v : Option String) : Field → Option (Option String) :=
  fun x => if x = f then some v else g x
/-- One iteration of the server's merge loop body. -/
def mergeStep (base : BaseCue) (mine : Field → Option String) (theirs : Cue)
    (st : MergeState) (f : Field) : MergeState :=
  match fieldDecision base mine theirs f with
  | .takeTheirs =>
      { st with merged := setField st.merged f (some (theirs.get f)) }
  | .takeMine =>
      { st with merged := setField st.merged f (mine f),
                mergedFields := st.mergedFields ++ [f] }
  | .bothSame =>
      { st with merged := setField st.merged f (mine f) }
  | .conflict =>
      { st with conflictingFields := st.conflictingFields ++ [f] }
/-- The whole merge loop (`for (const field of mergeFields)`), starting from
an empty `merged` object and empty accumulator arrays. -/
def runMerge (fields : List Field) (base : BaseCue)
    (mine : Field → Option String) (theirs : Cue) : MergeState :=
  fields.foldl (mergeStep base mine theirs) ⟨fun _ => none, [], []⟩
/-- The handler's `saveCue` closure: binds the ten field values plus a fresh
`now` timestamp into the UPDATE statement. better-sqlite3 rejects an
`undefined` binding value, so a missing value aborts the write (the request
fails) instead of writing; that failure is modelled as `none`. -/
def saveCue (existing : Cue) (values : Field → Option String)
    (now : String) : Option Cue :=
  if mergeFields.all (fun f => (values f).isSome) then
    some { reel := (values .reel).getD ""
         , scene := (values .scene).getD ""
         , cue_name := (values .cue_name).getD ""
         , start_time := (values .start_time).getD ""
         , end_time := (values .end_time).getD ""
         , dialog := (values .dialog).getD ""
         , character_id := (values .character_id).getD ""
         , notes := (values .notes).getD ""
         , status := (values .status).getD ""
         , priority := (values .priority).getD ""
         , created_at := existing.created_at
         , updated_at := now }
  else
    none
/-- Responses of the PUT handler: 200 direct, 200 with `merged: true` and
`mergedFields`, 404, 409 with `conflictingFields`, 409 without them (full
conflict), and the failure propagated from a rejected statement binding. -/
inductive PutResponse
  | okDirect (cue : Cue)
  | okMerged (cue : Cue) (mergedFields : List Field)
  | notFound
  | conflictWithFields (serverCue : Cue) (conflictingFields : List Field)
  | conflictFull (serverCue : Cue)
  | serverError
deriving DecidableEq, Repr
/-- The direct-write path (`saveCue(mine)` then 200 with the row). -/
def directOutcome (existing : Cue) (mine : Field → Option String)
    (now : String) : PutResponse × Option Cue :=
  match saveCue existing mine now with
  | some cue => (.okDirect cue, some cue)
  | none => (.serverError, some existing)
/-- The merge path: run the loop; with no conflicts save `merged` and answer
200 with `merged: true` plus `mergedFields`; otherwise answer 409 with the
current row and `conflictingFields`, leaving the store untouched. -/
def mergeOutcome (mine : Field → Option String) (base : BaseCue)
    (theirs : Cue) (now : String) : PutResponse × Option Cue :=
  let ms := runMerge mergeFields base mine theirs
  if ms.conflictingFields = [] then
    match saveCue theirs (fun f => (ms.merged f).getD none) now with
    | some cue => (.okMerged cue ms.mergedFields, some cue)
    | none => (.serverError, some theirs)
  else
    (.conflictWithFields theirs ms.conflictingFields, some theirs)
/-- The PUT `/api/cues/:id` handler, over the single addressed row
(`store` is the row with that id, if any) and the wall-clock reading `now`
used by `saveCue`. Returns the response and the row afterwards. -/
def putCue (body : PutBody) (store : Option Cue) (now : String) :
    PutResponse × Option Cue :=
  match store with
  | none => (.notFound, none)
  | some existing =>
      let mine := mineOf body existing
      if isFalsy body.updated_at ∨ body.updated_at = some existing.updated_at then
        directOutcome existing mine now
      else
        match body.baseCue with
        | some base => mergeOutcome mine base existing now
        | none => (.conflictFull existing, some existing)
/-- A 200-class response (direct or merged write succeeded). -/
def isSuccessResp : PutResponse → Bool
  | .okDirect _ => true
  | .okMerged _ _ => true
  | _ => false
/-! Part 2: the desktop client's change log and `SyncEngine`. -/
/-- A `change_log` row (GRDB `ChangeLogEntry`): autoincrement id (absent
before insertion), entity kind, entity id, operation, optional payload
snapshot, recorded timestamp, and the synced flag (an SQLite integer). -/
structure ChangeLogEntry where
  id : Option Int
  entity : String
  entity_id : String
  operation : String
  payload : Option String
  changed_at : String
  synced : Int
deriving DecidableEq, Repr
/-- Grouping key used by `deduplicateChanges`:
the string `"\(entry.entity):\(entry.entity_id)"`. -/
def keyOf (e : ChangeLogEntry) : String :=
  e.entity ++ ":" ++ e.entity_id
/-- The entries of one dedup group, in journal order (`groups[key]` is built
by appending entries as they are encountered). -/
def groupOf (changes : List ChangeLogEntry) (key : String) :
    List ChangeLogEntry :=
  changes.filter (fun e => keyOf e = key)
/-- Append a key to the `order` array unless it is already present. -/
def addKey (acc : List String) (k : String) : List String :=
  if k ∈ acc then acc else acc ++ [k]
/-- The `order` array: group keys in first-seen order. -/
def firstSeenKeys (changes : List ChangeLogEntry) : List String :=
  changes.foldl (fun acc e => addKey acc (keyOf e)) []
/-- Reduce one dedup group. Returns the entries kept for replay and the
entry ids marked synced on the spot (the net-zero insert-then-delete branch
calls `db.markSynced(entries.compactMap { $0.id })` and emits nothing). -/
def processGroup (entries : List ChangeLogEntry) :
    List ChangeLogEntry × List Int :=
  let ops := entries.map (fun e => e.operation)
  if ops.contains "delete" then
    if ops.head? = some "insert" then
      ([], entries.filterMap (fun e => e.id))
    else
      match entries.reverse.find? (fun e => e.operation = "delete") with
      | some d => ([d], [])
      | none => ([], [])
  else if ops.contains "insert" then
    match entries.find? (fun e => e.operation = "insert") with
    | none => ([], [])
    | some ins =>
      match entries.reverse.find? (fun e => e.operation = "update") with
      | some u => ([{ ins with payload := u.payload }], [])
      | none => ([ins], [])
  else
    match entries.getLast? with
    | some last => ([last], [])
    | none => ([], [])
/-- `SyncEngine.deduplicateChanges`: group by key in first-seen order and
reduce each group; also collects the ids the net-zero branch marks synced. -/
def deduplicateChanges (changes : List ChangeLogEntry) :
    List ChangeLogEntry × List Int :=
  (firstSeenKeys changes).foldl
    (fun acc key =>
      let pg := processGroup (groupOf changes key)
      (acc.1 ++ pg.1, acc.2 ++ pg.2))
    ([], [])
/-- Outcome of replaying one journal entry (`SyncEngine.ReplayResult`). -/
inductive ReplayResult
  | success
  | conflict
  | error (msg : String)
deriving DecidableEq, Repr
/-- A JSON record as exchanged with the server, reduced to the members the
sync engine reads: the record id, its version token, and the remaining
members kept opaque. -/
structure ServerDict where
  id : String
  updated_at : String
  rest : String
deriving DecidableEq, Repr
/-- The client's local store: characters and cues keyed by id, plus the
`change_log` table. -/
structure LocalDB where
  characters : List (String × ServerDict)
  cues : List (String × ServerDict)
  changeLog : List ChangeLogEntry
deriving DecidableEq, Repr
/-- Save-or-replace one record in a keyed list (GRDB `save`). -/
def upsertList (l : List (String × ServerDict)) (d : ServerDict) :
    List (String × ServerDict) :=
  if l.any (fun c => c.fst = d.id) then
    l.map (fun c => if c.fst = d.id then (d.id, d) else c)
  else
    l ++ [(d.id, d)]
/-- `AppDatabase.deleteCue(id:logChange:)`: delete the row and, only when
`logChange` is true, append a delete entry to the change log (the appended
entry's id and timestamp are assigned at the persistence boundary). -/
def deleteCueDb (db : LocalDB) (id : String) (logChange : Bool) : LocalDB :=
  { db with
    cues := db.cues.filter (fun c => c.fst ≠ id)
    changeLog :=
      if logChange then
        db.changeLog ++
          [{ id := none, entity := "cue", entity_id := id,
             operation := "delete", payload := none,
             changed_at := "", synced := 0 }]
      else
        db.changeLog }
/-- `SyncEngine.applyServerResponse`: upsert the record from a server
response dictionary into the matching local table. -/
def applyServerResponse (entity : String) (d : ServerDict) (db : LocalDB) :
    LocalDB :=
  if entity = "character" then
    { db with characters := upsertList db.characters d }
  else
    { db with cues := upsertList db.cues d }
/-- Environment of one `replayInsert` call: the JSON parse of the entry's
payload (failure is `none`) and the HTTP status of the POST. -/
structure InsertEnv where
  parsed : Option ServerDict
  status : Int
deriving Repr
/-- Environment of one `replayUpdate` call: payload parse result, PUT
status, the parsed response body (for 200), the response body's `serverCue`
member (for 409), the `onConflict` callback's decision (`none` when no
callback is installed, defaulted to keep-local), and the status/body of the
force-save retry. -/
structure UpdateEnv where
  parsed : Option ServerDict
  status : Int
  responseDict : Option ServerDict
  serverCue : Option ServerDict
  keepLocal : Option Bool
  retryStatus : Int
  retryDict : Option ServerDict
deriving Repr
/-- `SyncEngine.replayInsert`: parse failure is an error; 201 and 409
(already exists) are success; anything else is an error. -/
def replayInsert (entry : ChangeLogEntry) (env : InsertEnv) : ReplayResult :=
  match env.parsed with
  | none =>
      .error ("Invalid payload for insert " ++ entry.entity ++ ":" ++ entry.entity_id)
  | some _ =>
      if env.status = 201 then .success
      else if env.status = 409 then .success
      else .error ("Insert " ++ entry.entity ++ " " ++ entry.entity_id
                   ++ " failed: HTTP " ++ toString env.status)
/-- `SyncEngine.replayUpdate`: 200 applies the response locally and is
success; 404 is success and, for a cue, deletes the local copy with
journaling suppressed; 409 asks `onConflict` and either force-retries or
adopts the server copy, reporting a conflict; other codes are errors. -/
def replayUpdate (entry : ChangeLogEntry) (env : UpdateEnv) (db : LocalDB) :
    ReplayResult × LocalDB :=
  match env.parsed with
  | none =>
      (.error ("Invalid payload for update " ++ entry.entity ++ ":" ++ entry.entity_id), db)
  | some _ =>
      if env.status = 200 then
        match env.responseDict with
        | some d => (.success, applyServerResponse entry.entity d db)
        | none => (.success, db)
      else if env.status = 404 then
        if entry.entity = "cue" then
          (.success, deleteCueDb db entry.entity_id false)
        else
          (.success, db)
      else if env.status = 409 then
        match env.serverCue with
        | some sc =>
            if env.keepLocal.getD true then
              if env.retryStatus = 200 then
                match env.retryDict with
                | some rd => (.conflict, applyServerResponse entry.entity rd db)
                | none => (.conflict, db)
              else
                (.conflict, db)
            else
              (.conflict, applyServerResponse entry.entity sc db)
        | none =>
            (.error ("Conflict on " ++ entry.entity ++ " " ++ entry.entity_id
                     ++ " but no serverCue in response"), db)
      else
        (.error ("Update " ++ entry.entity ++ " " ++ entry.entity_id
                 ++ " failed: HTTP " ++ toString env.status), db)
/-- `SyncEngine.replayDelete`: 200 and 404 (already gone) are success. -/
def replayDelete (entry : ChangeLogEntry) (status : Int) : ReplayResult :=
  if status = 200 then .success
  else if status = 404 then .success
  else .error ("Delete " ++ entry.entity ++ " " ++ entry.entity_id
               ++ " failed: HTTP " ++ toString status)
/-- `markEntrySynced` after one replay: success and conflict outcomes mark
the entry's id (when it has one); errors leave it unmarked. -/
def entryMark (acc : List Int) (entry : ChangeLogEntry) (r : ReplayResult) :
    List Int :=
  match r with
  | .success => acc ++ entry.id.toList
  | .conflict => acc ++ entry.id.toList
  | .error _ => acc
/-- The set of change-log ids one sync cycle marks synced, given the replay
outcome of each kept entry: the ids marked by the dedup net-zero branch,
then the ids of replayed character entries and cue entries whose outcome
was success or conflict. -/
def performSyncMarkedIds (changes : List ChangeLogEntry)
    (outcome : ChangeLogEntry → ReplayResult) : List Int :=
  let dedup := deduplicateChanges changes
  let charChanges := dedup.1.filter (fun e => e.entity = "character")
  let cueChanges := dedup.1.filter (fun e => e.entity = "cue")
  dedup.2 ++
    (charChanges ++ cueChanges).foldl (fun acc e => entryMark acc e (outcome e)) []
/-- `AppDatabase.markSynced(ids:)`: set `synced = 1` on the listed rows. -/
def markSyncedDb (journal : List ChangeLogEntry) (ids : List Int) :
    List ChangeLogEntry :=
  journal.map (fun e =>
    match e.id with
    | some i => if ids.contains i then { e with synced := 1 } else e
    | none => e)
/-- `AppDatabase.clearSyncedChanges`: delete rows with `synced = 1`. -/
def clearSyncedChangesDb (journal : List ChangeLogEntry) :
    List ChangeLogEntry :=
  journal.filter (fun e => e.synced ≠ 1)
/-- The journal rows remaining after one sync cycle: the cycle's marks are
applied, then synced rows are purged (`performSync` step 5). -/
def journalAfterSync (changes : List ChangeLogEntry)
    (outcome : ChangeLogEntry → ReplayResult) : List ChangeLogEntry :=
  clearSyncedChangesDb (markSyncedDb changes (performSyncMarkedIds changes outcome))
/-- `AppDatabase.unsyncedChanges` membership: rows with `synced = 0`
(ordering by `changed_at` is not needed by the claims below). -/
def unsyncedOf (journal : List ChangeLogEntry) : List ChangeLogEntry :=
  journal.filter (fun e => e.synced = 0)
/-- A group is net-zero when it contains a delete and its first operation
was an insert (created and deleted entirely offline). -/
def isNetZeroGroup (changes : List ChangeLogEntry) (key : String) : Prop :=
  ((groupOf changes key).map (fun e => e.operation)).contains "delete" = true ∧
    ((groupOf changes key).map (fun e => e.operation)).head? = some "insert"
instance (changes : List ChangeLogEntry) (key : String) :
    Decidable (isNetZeroGroup changes key) :=
  inferInstanceAs (Decidable
    (((groupOf changes key).map (fun e => e.operation)).contains "delete" = true ∧
     ((groupOf changes key).map (fun e => e.operation)).head? = some "insert"))
/-! Characterization of the merge loop. -/
/-! Concrete records used by the witnesses and counterexamples. -/
/-- A stored cue row used as the concrete `existing` record below. -/
def sampleCue : Cue :=
  { reel := "r1", scene := "s2", cue_name := "intro", start_time := "00:01",
    end_time := "00:02", dialog := "hello", character_id := "ch1",
    notes := "", status := "printed", priority := "Medium",
    created_at := "2024-01-01T09:00:00.000Z",
    updated_at := "2024-01-01T10:00:00.000Z" }
/-- A base snapshot whose status differs from the stored one. -/
def c1Base : BaseCue := { status := some "spotted" }
/-- An update request carrying a stale version token, the base snapshot
above, and a third status value (a genuine conflict on `status`). -/
def c1Body : PutBody :=
  { start_time := some "00:01", end_time := some "00:02",
    dialog := some "hello", character_id := some "ch1",
    status := some "approved",
    updated_at := some "2024-01-01T08:00:00.000Z",
    baseCue := some c1Base }
/-- A request whose `updated_at` equals the stored one, with a base snapshot
whose `status` agrees with the writer's value but not with the store. -/
def c3Body : PutBody :=
  { start_time := some "00:01", end_time := some "00:02",
    dialog := some "hello", character_id := some "ch1",
    status := some "spotted",
    updated_at := some "2024-01-01T10:00:00.000Z",
    baseCue := some c1Base }
/-- The row the direct write stores for `c3Body`. -/
def c3Saved : Cue :=
  { sampleCue with status := "spotted",
                   updated_at := "2024-01-01T12:00:00.000Z" }
/-- A request that omits `updated_at` and also omits the unconditionally
rewritten `start_time`, `end_time` and `character_id` members. -/
def c9Body : PutBody := { dialog := some "changed" }
/-- A full direct-write request used by the C6 and C9 witnesses: it omits
`updated_at` and resubmits the sample row's own values. -/
def c6Body : PutBody :=
  { start_time := some "00:01", end_time := some "00:02",
    dialog := some "hello", character_id := some "ch1" }
/-- The row stored after replaying `c6Body` at the fixed clock reading. -/
def c6Saved : Cue :=
  { sampleCue with updated_at := "2024-01-01T12:00:00.000Z" }
/-! Structure of `deduplicateChanges`. -/
/-- Concrete journal: one cue entity created, edited twice, then deleted
offline, next to an unrelated second entity. -/
def c4Changes : List ChangeLogEntry :=
  [{ id := some 1, entity := "cue", entity_id := "x", operation := "insert",
     payload := some "p1", changed_at := "t1", synced := 0 },
   { id := some 2, entity := "cue", entity_id := "x", operation := "update",
     payload := some "p2", changed_at := "t2", synced := 0 },
   { id := some 3, entity := "cue", entity_id := "y", operation := "update",
     payload := some "q1", changed_at := "t3", synced := 0 },
   { id := some 4, entity := "cue", entity_id := "x", operation := "update",
     payload := some "p3", changed_at := "t4", synced := 0 },
   { id := some 5, entity := "cue", entity_id := "x", operation := "delete",
     payload := none, changed_at := "t5", synced := 0 }]
/-- Concrete journal with an insert-then-updates group, an updates-only
group, and no deletes. -/
def c5Changes : List ChangeLogEntry :=
  [{ id := some 1, entity := "cue", entity_id := "x", operation := "insert",
     payload := some "p1", changed_at := "t1", synced := 0 },
   { id := some 2, entity := "cue", entity_id := "x", operation := "update",
     payload := some "p2", changed_at := "t2", synced := 0 },
   { id := some 3, entity := "cue", entity_id := "y", operation := "update",
     payload := some "q1", changed_at := "t3", synced := 0 },
   { id := some 4, entity := "cue", entity_id := "x", operation := "update",
     payload := some "p3", changed_at := "t4", synced := 0 }]
/-- A journal entry, a local store, and replay environments used by the C7
witness. -/
def c7Entry : ChangeLogEntry :=
  { id := some 7, entity := "cue", entity_id := "x", operation := "update",
    payload := some "p", changed_at := "t", synced := 0 }
/-- A parsed payload record for the C7 witness. -/
def c7Dict : ServerDict := { id := "x", updated_at := "t", rest := "r" }
/-- A local store holding the cue the C7 witness update targets. -/
def c7Db : LocalDB :=
  { characters := [], cues := [("x", c7Dict), ("z", c7Dict)], changeLog := [c7Entry] }
/-! Marking behaviour of one sync cycle. -/
/-- The first update of the `cue:x` group in `c5Changes`: folded into the
kept insert by deduplication and therefore discarded. -/
def c10Entry : ChangeLogEntry :=
  { id := some 2, entity := "cue", entity_id := "x", operation := "update",
    payload := some "p2", changed_at := "t2", synced := 0 }
/-- A replay oracle that reports every kept entry as replayed
successfully. -/
def c10Outcome : ChangeLogEntry → ReplayResult := fun _ => .success
theorem foldl_mergeStep_conflictingFields (b : BaseCue) (m : Field → Option String)
    (t : Cue) (l : List Field) (st : MergeState) :
    (l.foldl (mergeStep b m t) st).conflictingFields =
      st.conflictingFields
        ++ l.filter (fun f => decide (fieldDecision b m t f = .conflict)) := by
  induction l generalizing st with
  | nil => simp
  | cons f l ih =>
      rw [List.foldl_cons, ih, List.filter_cons]
      cases hd : fieldDecision b m t f <;> simp [mergeStep, hd]
theorem foldl_mergeStep_mergedFields (b : BaseCue) (m : Field → Option String)
    (t : Cue) (l : List Field) (st : MergeState) :
    (l.foldl (mergeStep b m t) st).mergedFields =
      st.mergedFields
        ++ l.filter (fun f => decide (fieldDecision b m t f = .takeMine)) := by
  induction l generalizing st with
  | nil => simp
  | cons f l ih =>
      rw [List.foldl_cons, ih, List.filter_cons]
      cases hd : fieldDecision b m t f <;> simp [mergeStep, hd]
theorem foldl_mergeStep_merged (b : BaseCue) (m : Field → Option String)
    (t : Cue) (l : List Field) (st : MergeState) (x : Field) :
    (l.foldl (mergeStep b m t) st).merged x =
      if x ∈ l ∧ fieldDecision b m t x ≠ .conflict
      then some (fieldValue b m t x)
      else st.merged x := by
  induction l generalizing st with
  | nil => simp
  | cons f l ih =>
      rw [List.foldl_cons, ih]
      by_cases hc : fieldDecision b m t x = .conflict
      · simp only [hc, ne_eq, not_true_eq_false, and_false, if_false]
        by_cases hxf : x = f
        · subst hxf
          simp [mergeStep, hc]
        · cases hd : fieldDecision b m t f <;>
            simp [mergeStep, hd, setField, hxf]
      · by_cases hxl : x ∈ l
        · simp [hxl, hc, List.mem_cons]
        · by_cases hxf : x = f
          · subst hxf
            simp only [hxl, false_and, if_false, List.mem_cons, true_or, ne_eq, hc,
              not_false_eq_true, and_true, if_true]
            cases hd : fieldDecision b m t x <;>
              first
              | exact absurd hd hc
              | simp [mergeStep, hd, setField, fieldValue]
          · have hmem : x ∉ f :: l := by
              simp [List.mem_cons, hxf, hxl]
            simp only [hxl, false_and, if_false, hmem, false_and, if_false]
            cases hd : fieldDecision b m t f <;>
              simp [mergeStep, hd, setField, hxf]
theorem runMerge_conflictingFields (l : List Field) (b : BaseCue)
    (m : Field → Option String) (t : Cue) :
    (runMerge l b m t).conflictingFields =
      l.filter (fun f => decide (fieldDecision b m t f = .conflict)) := by
  simpa [runMerge] using foldl_mergeStep_conflictingFields b m t l ⟨fun _ => none, [], []⟩
theorem runMerge_mergedFields (l : List Field) (b : BaseCue)
    (m : Field → Option String) (t : Cue) :
    (runMerge l b m t).mergedFields =
      l.filter (fun f => decide (fieldDecision b m t f = .takeMine)) := by
  simpa [runMerge] using foldl_mergeStep_mergedFields b m t l ⟨fun _ => none, [], []⟩
theorem runMerge_merged (l : List Field) (b : BaseCue)
    (m : Field → Option String) (t : Cue) (x : Field) :
    (runMerge l b m t).merged x =
      if x ∈ l ∧ fieldDecision b m t x ≠ .conflict
      then some (fieldValue b m t x)
      else none := by
  simpa [runMerge] using foldl_mergeStep_merged b m t l ⟨fun _ => none, [], []⟩ x
theorem mem_conflictingFields_iff (l : List Field) (b : BaseCue)
    (m : Field → Option String) (t : Cue) (f : Field) :
    f ∈ (runMerge l b m t).conflictingFields ↔
      f ∈ l ∧ fieldDecision b m t f = .conflict := by
  rw [runMerge_conflictingFields]
  simp [List.mem_filter]
theorem mem_mergedFields_iff (l : List Field) (b : BaseCue)
    (m : Field → Option String) (t : Cue) (f : Field) :
    f ∈ (runMerge l b m t).mergedFields ↔
      f ∈ l ∧ fieldDecision b m t f = .takeMine := by
  rw [runMerge_mergedFields]
  simp [List.mem_filter]
theorem mem_mergeFields (f : Field) : f ∈ mergeFields := by
  cases f <;> simp [mergeFields]
theorem decision_takeTheirs (b : BaseCue) (m : Field → Option String) (t : Cue)
    (f : Field) (h1 : (m f).getD "" = (b.get f).getD "") :
    fieldDecision b m t f = .takeTheirs := by
  simp [fieldDecision, h1]
theorem decision_takeMine (b : BaseCue) (m : Field → Option String) (t : Cue)
    (f : Field) (h1 : (m f).getD "" ≠ (b.get f).getD "")
    (h2 : t.get f = (b.get f).getD "") :
    fieldDecision b m t f = .takeMine := by
  simp [fieldDecision, h1, h2]
theorem decision_bothSame (b : BaseCue) (m : Field → Option String) (t : Cue)
    (f : Field) (_h1 : (m f).getD "" ≠ (b.get f).getD "")
    (h2 : t.get f ≠ (b.get f).getD "")
    (h3 : (m f).getD "" = t.get f) :
    fieldDecision b m t f = .bothSame := by
  simp [fieldDecision, h2, h3]
theorem decision_conflict (b : BaseCue) (m : Field → Option String) (t : Cue)
    (f : Field) (h1 : (m f).getD "" ≠ (b.get f).getD "")
    (h2 : t.get f ≠ (b.get f).getD "")
    (h3 : (m f).getD "" ≠ t.get f) :
    fieldDecision b m t f = .conflict := by
  simp [fieldDecision, h1, h2, h3]
theorem merge_rule_takeTheirs (b : BaseCue) (m : Field → Option String)
    (t : Cue) (f : Field) (h1 : (m f).getD "" = (b.get f).getD "") :
    (runMerge mergeFields b m t).merged f = some (some (t.get f)) ∧
    f ∉ (runMerge mergeFields b m t).conflictingFields := by
  have hd := decision_takeTheirs b m t f h1
  refine ⟨?_, ?_⟩
  · rw [runMerge_merged]
    simp [mem_mergeFields f, hd, fieldValue]
  · rw [mem_conflictingFields_iff]
    simp [hd]
theorem merge_rule_takeMine (b : BaseCue) (m : Field → Option String)
    (t : Cue) (f : Field) (h1 : (m f).getD "" ≠ (b.get f).getD "")
    (h2 : t.get f = (b.get f).getD "") :
    (runMerge mergeFields b m t).merged f = some (m f) ∧
    f ∈ (runMerge mergeFields b m t).mergedFields := by
  have hd := decision_takeMine b m t f h1 h2
  refine ⟨?_, ?_⟩
  · rw [runMerge_merged]
    simp [mem_mergeFields f, hd, fieldValue]
  · rw [mem_mergedFields_iff]
    simp [mem_mergeFields f, hd]
theorem merge_rule_bothSame (b : BaseCue) (m : Field → Option String)
    (t : Cue) (f : Field) (h1 : (m f).getD "" ≠ (b.get f).getD "")
    (h2 : t.get f ≠ (b.get f).getD "")
    (h3 : (m f).getD "" = t.get f) :
    (runMerge mergeFields b m t).merged f = some (m f) ∧
    f ∉ (runMerge mergeFields b m t).conflictingFields := by
  have hd := decision_bothSame b m t f h1 h2 h3
  refine ⟨?_, ?_⟩
  · rw [runMerge_merged]
    simp [mem_mergeFields f, hd, fieldValue]
  · rw [mem_conflictingFields_iff]
    simp [hd]
theorem merge_rule_conflict (b : BaseCue) (m : Field → Option String)
    (t : Cue) (f : Field) (h1 : (m f).getD "" ≠ (b.get f).getD "")
    (h2 : t.get f ≠ (b.get f).getD "")
    (h3 : (m f).getD "" ≠ t.get f) :
    f ∈ (runMerge mergeFields b m t).conflictingFields := by
  have hd := decision_conflict b m t f h1 h2 h3
  rw [mem_conflictingFields_iff]
  exact ⟨mem_mergeFields f, hd⟩
/-- The guard of the PUT handler routes a base-carrying request into the
merge path exactly when `updated_at` is supplied, non-empty, and different
from the stored value. -/
theorem putCue_merge_path (body : PutBody) (existing : Cue) (base : BaseCue)
    (now : String) (hbase : body.baseCue = some base)
    (hfalsy : isFalsy body.updated_at = false)
    (hne : body.updated_at ≠ some existing.updated_at) :
    putCue body (some existing) now =
      mergeOutcome (mineOf body existing) base existing now := by
  simp [putCue, hbase, hfalsy, hne]
/-- C1: for every update request on an existing cue that supplies a base
snapshot and a non-empty `updated_at` differing from the stored one, the
handler takes the merge path, and the three-way merge decides each mergeable
field by string comparison: if mine equals base, the merged value is theirs
and there is no conflict; else if theirs equals base, the merged value is
mine and the field is reported in `mergedFields`; else if mine equals
theirs, the merged value is mine with no conflict; otherwise the field is
added to the conflict set. -/
theorem c1_put_merge_decides_fields (body : PutBody) (existing : Cue)
    (base : BaseCue) (now : String)
    (hbase : body.baseCue = some base)
    (hfalsy : isFalsy body.updated_at = false)
    (hne : body.updated_at ≠ some existing.updated_at) :
    putCue body (some existing) now =
      mergeOutcome (mineOf body existing) base existing now ∧
    ∀ f : Field,
      ((mineOf body existing f).getD "" = (base.get f).getD "" →
        (runMerge mergeFields base (mineOf body existing) existing).merged f =
            some (some (existing.get f)) ∧
        f ∉ (runMerge mergeFields base (mineOf body existing) existing).conflictingFields) ∧
      ((mineOf body existing f).getD "" ≠ (base.get f).getD "" →
       existing.get f = (base.get f).getD "" →
        (runMerge mergeFields base (mineOf body existing) existing).merged f =
            some (mineOf body existing f) ∧
        f ∈ (runMerge mergeFields base (mineOf body existing) existing).mergedFields) ∧
      ((mineOf body existing f).getD "" ≠ (base.get f).getD "" →
       existing.get f ≠ (base.get f).getD "" →
       (mineOf body existing f).getD "" = existing.get f →
        (runMerge mergeFields base (mineOf body existing) existing).merged f =
            some (mineOf body existing f) ∧
        f ∉ (runMerge mergeFields base (mineOf body existing) existing).conflictingFields) ∧
      ((mineOf body existing f).getD "" ≠ (base.get f).getD "" →
       existing.get f ≠ (base.get f).getD "" →
       (mineOf body existing f).getD "" ≠ existing.get f →
        f ∈ (runMerge mergeFields base (mineOf body existing) existing).conflictingFields) := by
  refine ⟨putCue_merge_path body existing base now hbase hfalsy hne, fun f => ?_⟩
  exact ⟨fun h1 => merge_rule_takeTheirs base (mineOf body existing) existing f h1,
         fun h1 h2 => merge_rule_takeMine base (mineOf body existing) existing f h1 h2,
         fun h1 h2 h3 => merge_rule_bothSame base (mineOf body existing) existing f h1 h2 h3,
         fun h1 h2 h3 => merge_rule_conflict base (mineOf body existing) existing f h1 h2 h3⟩
/-- Witness for C1 at a concrete conflicting request. -/
theorem c1_put_merge_decides_fields_witness :
    putCue c1Body (some sampleCue) "2024-01-01T12:00:00.000Z" =
      mergeOutcome (mineOf c1Body sampleCue) c1Base sampleCue "2024-01-01T12:00:00.000Z" ∧
    ∀ f : Field,
      ((mineOf c1Body sampleCue f).getD "" = (c1Base.get f).getD "" →
        (runMerge mergeFields c1Base (mineOf c1Body sampleCue) sampleCue).merged f =
            some (some (sampleCue.get f)) ∧
        f ∉ (runMerge mergeFields c1Base (mineOf c1Body sampleCue) sampleCue).conflictingFields) ∧
      ((mineOf c1Body sampleCue f).getD "" ≠ (c1Base.get f).getD "" →
       sampleCue.get f = (c1Base.get f).getD "" →
        (runMerge mergeFields c1Base (mineOf c1Body sampleCue) sampleCue).merged f =
            some (mineOf c1Body sampleCue f) ∧
        f ∈ (runMerge mergeFields c1Base (mineOf c1Body sampleCue) sampleCue).mergedFields) ∧
      ((mineOf c1Body sampleCue f).getD "" ≠ (c1Base.get f).getD "" →
       sampleCue.get f ≠ (c1Base.get f).getD "" →
       (mineOf c1Body sampleCue f).getD "" = sampleCue.get f →
        (runMerge mergeFields c1Base (mineOf c1Body sampleCue) sampleCue).merged f =
            some (mineOf c1Body sampleCue f) ∧
        f ∉ (runMerge mergeFields c1Base (mineOf c1Body sampleCue) sampleCue).conflictingFields) ∧
      ((mineOf c1Body sampleCue f).getD "" ≠ (c1Base.get f).getD "" →
       sampleCue.get f ≠ (c1Base.get f).getD "" →
       (mineOf c1Body sampleCue f).getD "" ≠ sampleCue.get f →
        f ∈ (runMerge mergeFields c1Base (mineOf c1Body sampleCue) sampleCue).conflictingFields) :=
  c1_put_merge_decides_fields c1Body sampleCue c1Base "2024-01-01T12:00:00.000Z"
    (by decide) (by decide) (by decide)
/-- C2: when the three-way merge produces a non-empty conflict set, the PUT
answers 409 with the conflicting field names and the stored record's current
full state, and the stored row is left completely unchanged (its
`updated_at` does not advance). -/
theorem c2_conflict_rejects_write (body : PutBody) (existing : Cue)
    (base : BaseCue) (now : String)
    (hbase : body.baseCue = some base)
    (hfalsy : isFalsy body.updated_at = false)
    (hne : body.updated_at ≠ some existing.updated_at)
    (hconf : (runMerge mergeFields base (mineOf body existing) existing).conflictingFields ≠ []) :
    putCue body (some existing) now =
      (.conflictWithFields existing
         (runMerge mergeFields base (mineOf body existing) existing).conflictingFields,
       some existing) := by
  rw [putCue_merge_path body existing base now hbase hfalsy hne]
  simp [mergeOutcome, hconf]
/-- Witness for C2: the concrete stale conflicting request is rejected with
the stored record and the `status` conflict, and the row is unchanged. -/
theorem c2_conflict_rejects_write_witness :
    putCue c1Body (some sampleCue) "2024-01-01T12:00:00.000Z" =
      (.conflictWithFields sampleCue
         (runMerge mergeFields c1Base (mineOf c1Body sampleCue) sampleCue).conflictingFields,
       some sampleCue) :=
  c2_conflict_rejects_write c1Body sampleCue c1Base "2024-01-01T12:00:00.000Z"
    (by decide) (by decide) (by decide) (by decide)
/-- C3 counterexample: with a base snapshot supplied and the caller's
`updated_at` equal to the stored one, the handler performs a direct write of
the caller's values (status becomes "spotted") and does not run the
three-way merge, which for the same inputs keeps the stored status
("printed"); the handler's outcome differs from the merge outcome. -/
theorem c3_counterexample :
    c3Body.baseCue = some c1Base ∧
    c3Body.updated_at = some sampleCue.updated_at ∧
    putCue c3Body (some sampleCue) "2024-01-01T12:00:00.000Z" =
      (.okDirect c3Saved, some c3Saved) ∧
    c3Saved.status = "spotted" ∧
    (runMerge mergeFields c1Base (mineOf c3Body sampleCue) sampleCue).merged .status =
      some (some "printed") ∧
    putCue c3Body (some sampleCue) "2024-01-01T12:00:00.000Z" ≠
      mergeOutcome (mineOf c3Body sampleCue) c1Base sampleCue "2024-01-01T12:00:00.000Z" := by
  decide
/-- C3 amended: when a base snapshot is supplied, the handler runs the
per-field merge only when the caller's `updated_at` is present, non-empty,
and different from the stored one; when the timestamps agree (or
`updated_at` is falsy) it performs the direct write instead. When the merge
path is taken, its outcome is the pure function `mergeOutcome` of
(mine, base, theirs) and the write clock. -/
theorem c3_amended_merge_guard (body : PutBody) (existing : Cue)
    (base : BaseCue) (now : String) (hbase : body.baseCue = some base) :
    putCue body (some existing) now =
      if isFalsy body.updated_at ∨ body.updated_at = some existing.updated_at
      then directOutcome existing (mineOf body existing) now
      else mergeOutcome (mineOf body existing) base existing now := by
  by_cases h : isFalsy body.updated_at = true ∨ body.updated_at = some existing.updated_at
  · simp only [putCue, h, if_true, if_pos h]
  · simp only [putCue, hbase, if_neg h]
/-- Witness for the amended C3 at the concrete matching-timestamp request. -/
theorem c3_amended_merge_guard_witness :
    putCue c3Body (some sampleCue) "2024-01-01T12:00:00.000Z" =
      if isFalsy c3Body.updated_at ∨ c3Body.updated_at = some sampleCue.updated_at
      then directOutcome sampleCue (mineOf c3Body sampleCue) "2024-01-01T12:00:00.000Z"
      else mergeOutcome (mineOf c3Body sampleCue) c1Base sampleCue "2024-01-01T12:00:00.000Z" :=
  c3_amended_merge_guard c3Body sampleCue c1Base "2024-01-01T12:00:00.000Z" (by decide)
/-- C8: evaluating the mergeable fields in any other order (any permutation
of the field list) leaves the conflict set, the auto-merged set, and the
merged value of every field unchanged. -/
theorem c8_merge_order_independent (l1 l2 : List Field) (h : l1.Perm l2)
    (b : BaseCue) (m : Field → Option String) (t : Cue) :
    (∀ f : Field, f ∈ (runMerge l1 b m t).conflictingFields ↔
        f ∈ (runMerge l2 b m t).conflictingFields) ∧
    (∀ f : Field, f ∈ (runMerge l1 b m t).mergedFields ↔
        f ∈ (runMerge l2 b m t).mergedFields) ∧
    (∀ f : Field, (runMerge l1 b m t).merged f = (runMerge l2 b m t).merged f) := by
  refine ⟨fun f => ?_, fun f => ?_, fun f => ?_⟩
  · rw [mem_conflictingFields_iff, mem_conflictingFields_iff, h.mem_iff]
  · rw [mem_mergedFields_iff, mem_mergedFields_iff, h.mem_iff]
  · rw [runMerge_merged, runMerge_merged,
      if_congr (and_congr_left' h.mem_iff) rfl rfl]
/-- Witness for C8: the declared field order against its reversal, on the
concrete conflicting request. -/
theorem c8_merge_order_independent_witness :
    (∀ f : Field,
      f ∈ (runMerge mergeFields c1Base (mineOf c1Body sampleCue) sampleCue).conflictingFields ↔
      f ∈ (runMerge mergeFields.reverse c1Base (mineOf c1Body sampleCue) sampleCue).conflictingFields) ∧
    (∀ f : Field,
      f ∈ (runMerge mergeFields c1Base (mineOf c1Body sampleCue) sampleCue).mergedFields ↔
      f ∈ (runMerge mergeFields.reverse c1Base (mineOf c1Body sampleCue) sampleCue).mergedFields) ∧
    (∀ f : Field,
      (runMerge mergeFields c1Base (mineOf c1Body sampleCue) sampleCue).merged f =
      (runMerge mergeFields.reverse c1Base (mineOf c1Body sampleCue) sampleCue).merged f) :=
  c8_merge_order_independent mergeFields mergeFields.reverse
    (List.reverse_perm mergeFields).symm c1Base (mineOf c1Body sampleCue) sampleCue
/-- C9 counterexample: a PUT that omits `updated_at` but also omits
`start_time` does not perform a 200 direct write: the UPDATE statement
receives an undefined binding and the request fails (the row is kept, and no
409 is produced either). -/
theorem c9_counterexample :
    c9Body.updated_at = none ∧
    putCue c9Body (some sampleCue) "2024-01-01T12:00:00.000Z" =
      (.serverError, some sampleCue) := by
  decide
/-- C9 amended: a PUT on an existing cue whose body omits `updated_at` never
answers 409 — even when the stored record changed since the caller's read
and even when a base snapshot is supplied — and, whenever the body also
supplies the four unconditionally rewritten fields, it performs the 200
direct write, storing the caller's value for every supplied field and the
existing value for omitted optional fields, with `updated_at` rewritten to
the write clock. -/
theorem c9_amended_direct_write (body : PutBody) (existing : Cue)
    (now : String) (hnone : body.updated_at = none) :
    (∀ sc cf, (putCue body (some existing) now).1 ≠ .conflictWithFields sc cf) ∧
    (∀ sc, (putCue body (some existing) now).1 ≠ .conflictFull sc) ∧
    (∀ s1 s2 s3 s4, body.start_time = some s1 → body.end_time = some s2 →
      body.dialog = some s3 → body.character_id = some s4 →
      ∃ cue, putCue body (some existing) now = (.okDirect cue, some cue) ∧
        cue.start_time = s1 ∧ cue.end_time = s2 ∧ cue.dialog = s3 ∧
        cue.character_id = s4 ∧
        cue.reel = body.reel.getD existing.reel ∧
        cue.scene = body.scene.getD existing.scene ∧
        cue.cue_name = body.cue_name.getD existing.cue_name ∧
        cue.notes = body.notes.getD existing.notes ∧
        cue.status = body.status.getD existing.status ∧
        cue.priority = body.priority.getD existing.priority ∧
        cue.updated_at = now) := by
  have hpath : putCue body (some existing) now =
      directOutcome existing (mineOf body existing) now := by
    simp [putCue, hnone, isFalsy]
  refine ⟨?_, ?_, ?_⟩
  · intro sc cf
    rw [hpath]
    unfold directOutcome
    cases hsv : saveCue existing (mineOf body existing) now <;> simp
  · intro sc
    rw [hpath]
    unfold directOutcome
    cases hsv : saveCue existing (mineOf body existing) now <;> simp
  · intro s1 s2 s3 s4 h1 h2 h3 h4
    rw [hpath]
    have hall : mergeFields.all (fun f => ((mineOf body existing) f).isSome) = true := by
      simp [mergeFields, mineOf, h1, h2, h3, h4]
    unfold directOutcome saveCue
    rw [if_pos hall]
    refine ⟨_, rfl, ?_, ?_, ?_, ?_, ?_, ?_, ?_, ?_, ?_, ?_, rfl⟩ <;>
      simp [mineOf, h1, h2, h3, h4]
/-- Witness for the amended C9 at a concrete request omitting `updated_at`
but supplying the four required fields. -/
theorem c9_amended_direct_write_witness :
    (∀ sc cf,
      (putCue c6Body (some sampleCue) "2024-01-01T12:00:00.000Z").1 ≠
        .conflictWithFields sc cf) ∧
    (∀ sc, (putCue c6Body (some sampleCue) "2024-01-01T12:00:00.000Z").1 ≠
        .conflictFull sc) ∧
    (∀ s1 s2 s3 s4, c6Body.start_time = some s1 → c6Body.end_time = some s2 →
      c6Body.dialog = some s3 → c6Body.character_id = some s4 →
      ∃ cue, putCue c6Body (some sampleCue) "2024-01-01T12:00:00.000Z" =
          (.okDirect cue, some cue) ∧
        cue.start_time = s1 ∧ cue.end_time = s2 ∧ cue.dialog = s3 ∧
        cue.character_id = s4 ∧
        cue.reel = c6Body.reel.getD sampleCue.reel ∧
        cue.scene = c6Body.scene.getD sampleCue.scene ∧
        cue.cue_name = c6Body.cue_name.getD sampleCue.cue_name ∧
        cue.notes = c6Body.notes.getD sampleCue.notes ∧
        cue.status = c6Body.status.getD sampleCue.status ∧
        cue.priority = c6Body.priority.getD sampleCue.priority ∧
        cue.updated_at = "2024-01-01T12:00:00.000Z") :=
  c9_amended_direct_write c6Body sampleCue "2024-01-01T12:00:00.000Z" (by decide)
/-- A write through `saveCue` always stamps the given clock reading. -/
theorem saveCue_some_updated_at (existing : Cue)
    (values : Field → Option String) (now : String) (cue : Cue)
    (h : saveCue existing values now = some cue) : cue.updated_at = now := by
  unfold saveCue at h
  split at h
  · simp only [Option.some.injEq] at h
    subst h
    rfl
  · cases h
/-- Every successful PUT mutation leaves the addressed row present with
`updated_at` equal to the write's clock reading. -/
theorem putCue_success_state (body : PutBody) (store : Option Cue)
    (now : String) (h : isSuccessResp (putCue body store now).1 = true) :
    ∃ cue, (putCue body store now).2 = some cue ∧ cue.updated_at = now := by
  cases store with
  | none => simp [putCue, isSuccessResp] at h
  | some existing =>
      by_cases hg : isFalsy body.updated_at = true ∨
          body.updated_at = some existing.updated_at
      · rw [show putCue body (some existing) now =
            directOutcome existing (mineOf body existing) now by
              simp [putCue, hg]] at h ⊢
        unfold directOutcome at h ⊢
        cases hsv : saveCue existing (mineOf body existing) now with
        | some cue => exact ⟨cue, rfl, saveCue_some_updated_at _ _ _ _ hsv⟩
        | none =>
            rw [hsv] at h
            simp [isSuccessResp] at h
      · cases hbc : body.baseCue with
        | none =>
            rw [show putCue body (some existing) now =
                (.conflictFull existing, some existing) by
                  simp [putCue, hg, hbc]] at h
            simp [isSuccessResp] at h
        | some base =>
            rw [show putCue body (some existing) now =
                mergeOutcome (mineOf body existing) base existing now by
                  simp [putCue, hg, hbc]] at h ⊢
            simp only [mergeOutcome] at h ⊢
            by_cases hcf : (runMerge mergeFields base (mineOf body existing)
                existing).conflictingFields = []
            · rw [if_pos hcf] at h ⊢
              cases hsv : saveCue existing
                  (fun f => ((runMerge mergeFields base (mineOf body existing)
                    existing).merged f).getD none) now with
              | some cue => exact ⟨cue, rfl, saveCue_some_updated_at _ _ _ _ hsv⟩
              | none =>
                  rw [hsv] at h
                  simp [isSuccessResp] at h
            · rw [if_neg hcf] at h
              simp [isSuccessResp] at h
/-- C6 counterexample: two consecutive successful direct writes sharing one
clock reading (two mutations within the same millisecond) store the same
`updated_at`: the later value is not strictly greater and the earlier value
is reused. -/
theorem c6_counterexample :
    isSuccessResp (putCue c6Body (some sampleCue) "2024-01-01T12:00:00.000Z").1 = true ∧
    (putCue c6Body (some sampleCue) "2024-01-01T12:00:00.000Z").2 = some c6Saved ∧
    isSuccessResp (putCue c6Body (some c6Saved) "2024-01-01T12:00:00.000Z").1 = true ∧
    (putCue c6Body (some c6Saved) "2024-01-01T12:00:00.000Z").2 = some c6Saved ∧
    ¬ c6Saved.updated_at < c6Saved.updated_at := by
  refine ⟨by decide, by decide, by decide, by decide, ?_⟩
  exact lt_irrefl _
/-- C6 amended: every successful PUT mutation rewrites `updated_at` to the
write's clock reading, so across two consecutive successful writes to the
same record the stored `updated_at` strictly increases whenever the second
write's clock reading is strictly greater than the first's; the code itself
does not force distinct readings for writes in the same millisecond. -/
theorem c6_amended_updated_at_monotone (b1 b2 : PutBody) (st0 : Option Cue)
    (t1 t2 : String)
    (h1 : isSuccessResp (putCue b1 st0 t1).1 = true)
    (h2 : isSuccessResp (putCue b2 (putCue b1 st0 t1).2 t2).1 = true)
    (hc : t1 < t2) :
    ∃ c1 c2, (putCue b1 st0 t1).2 = some c1 ∧
      (putCue b2 (putCue b1 st0 t1).2 t2).2 = some c2 ∧
      c1.updated_at = t1 ∧ c2.updated_at = t2 ∧
      c1.updated_at < c2.updated_at ∧ c1.updated_at ≠ c2.updated_at := by
  obtain ⟨c1, hs1, hu1⟩ := putCue_success_state b1 st0 t1 h1
  obtain ⟨c2, hs2, hu2⟩ := putCue_success_state b2 ((putCue b1 st0 t1).2) t2 h2
  refine ⟨c1, c2, hs1, hs2, hu1, hu2, ?_, ?_⟩
  · rw [hu1, hu2]; exact hc
  · rw [hu1, hu2]; exact ne_of_lt hc
theorem deduplicateChanges_eq (changes : List ChangeLogEntry) :
    deduplicateChanges changes =
      ((firstSeenKeys changes).flatMap
          (fun k => (processGroup (groupOf changes k)).1),
       (firstSeenKeys changes).flatMap
          (fun k => (processGroup (groupOf changes k)).2)) := by
  unfold deduplicateChanges
  suffices h : ∀ (keys : List String) (a : List ChangeLogEntry) (b : List Int),
      keys.foldl
        (fun acc key =>
          let pg := processGroup (groupOf changes key)
          (acc.1 ++ pg.1, acc.2 ++ pg.2)) (a, b) =
      (a ++ keys.flatMap (fun k => (processGroup (groupOf changes k)).1),
       b ++ keys.flatMap (fun k => (processGroup (groupOf changes k)).2)) by
    simpa using h (firstSeenKeys changes) [] []
  intro keys
  induction keys with
  | nil => intro a b; simp
  | cons k ks ih =>
      intro a b
      rw [List.foldl_cons, ih]
      simp [List.flatMap_cons, List.append_assoc]
theorem mem_addKey (acc : List String) (k' k : String) :
    k ∈ addKey acc k' ↔ k ∈ acc ∨ k = k' := by
  unfold addKey
  by_cases h : k' ∈ acc
  · rw [if_pos h]
    constructor
    · exact Or.inl
    · rintro (hk | rfl)
      · exact hk
      · exact h
  · rw [if_neg h]
    simp
theorem mem_foldl_addKey (l : List ChangeLogEntry) (acc : List String)
    (k : String) :
    k ∈ l.foldl (fun acc e => addKey acc (keyOf e)) acc ↔
      k ∈ acc ∨ ∃ e ∈ l, keyOf e = k := by
  induction l generalizing acc with
  | nil => simp
  | cons e l ih =>
      rw [List.foldl_cons, ih, mem_addKey]
      constructor
      · rintro ((h | rfl) | ⟨x, hx, rfl⟩)
        · exact Or.inl h
        · exact Or.inr ⟨e, List.mem_cons_self e l, rfl⟩
        · exact Or.inr ⟨x, List.mem_cons_of_mem e hx, rfl⟩
      · rintro (h | ⟨x, hx, rfl⟩)
        · exact Or.inl (Or.inl h)
        · rcases List.mem_cons.mp hx with rfl | hx'
          · exact Or.inl (Or.inr rfl)
          · exact Or.inr ⟨x, hx', rfl⟩
theorem mem_firstSeenKeys (changes : List ChangeLogEntry) (k : String) :
    k ∈ firstSeenKeys changes ↔ ∃ e ∈ changes, keyOf e = k := by
  unfold firstSeenKeys
  rw [mem_foldl_addKey]
  simp
theorem nodup_foldl_addKey (l : List ChangeLogEntry) (acc : List String)
    (h : acc.Nodup) :
    (l.foldl (fun acc e => addKey acc (keyOf e)) acc).Nodup := by
  induction l generalizing acc with
  | nil => exact h
  | cons e l ih =>
      rw [List.foldl_cons]
      apply ih
      unfold addKey
      by_cases hk : keyOf e ∈ acc
      · rw [if_pos hk]; exact h
      · rw [if_neg hk]
        refine List.Nodup.append h (List.nodup_singleton _) ?_
        intro x hx hx'
        rw [List.mem_singleton] at hx'
        subst hx'
        exact hk hx
theorem firstSeenKeys_nodup (changes : List ChangeLogEntry) :
    (firstSeenKeys changes).Nodup :=
  nodup_foldl_addKey changes [] List.nodup_nil
theorem mem_groupOf (changes : List ChangeLogEntry) (k : String)
    (x : ChangeLogEntry) (hx : x ∈ groupOf changes k) :
    x ∈ changes ∧ keyOf x = k := by
  have h := List.mem_filter.mp hx
  exact ⟨h.1, by simpa using h.2⟩
/-- In the net-zero case the group emits nothing and marks exactly the
group's ids. -/
theorem processGroup_netZero (g : List ChangeLogEntry)
    (hdel : (g.map (fun e => e.operation)).contains "delete" = true)
    (hfirst : (g.map (fun e => e.operation)).head? = some "insert") :
    processGroup g = ([], g.filterMap (fun e => e.id)) := by
  simp only [processGroup]
  rw [if_pos hdel, if_pos hfirst]
theorem processGroup_kept (g : List ChangeLogEntry) (e : ChangeLogEntry)
    (he : e ∈ (processGroup g).1) :
    ∃ x ∈ g, keyOf e = keyOf x ∧ e.id = x.id := by
  by_cases hdel : (g.map (fun e => e.operation)).contains "delete" = true
  · by_cases hfirst : (g.map (fun e => e.operation)).head? = some "insert"
    · rw [processGroup_netZero g hdel hfirst] at he
      simp at he
    · cases hfind : g.reverse.find? (fun e => e.operation = "delete") with
      | some d =>
          have hpg : (processGroup g).1 = [d] := by
            simp only [processGroup]
            rw [if_pos hdel, if_neg hfirst, hfind]
          rw [hpg, List.mem_singleton] at he
          refine ⟨d, List.mem_reverse.mp (List.mem_of_find?_eq_some hfind),
            ?_, ?_⟩ <;> simp [he]
      | none =>
          have hpg : (processGroup g).1 = [] := by
            simp only [processGroup]
            rw [if_pos hdel, if_neg hfirst, hfind]
          rw [hpg] at he
          simp at he
  · by_cases hins : (g.map (fun e => e.operation)).contains "insert" = true
    · cases hfind : g.find? (fun e => e.operation = "insert") with
      | none =>
          have hpg : (processGroup g).1 = [] := by
            simp only [processGroup]
            rw [if_neg hdel, if_pos hins, hfind]
          rw [hpg] at he
          simp at he
      | some ins =>
          cases hu : g.reverse.find? (fun e => e.operation = "update") with
          | some u =>
              have hpg : (processGroup g).1 = [{ ins with payload := u.payload }] := by
                simp only [processGroup]
                rw [if_neg hdel, if_pos hins, hfind, hu]
              rw [hpg, List.mem_singleton] at he
              refine ⟨ins, List.mem_of_find?_eq_some hfind, ?_, ?_⟩ <;>
                simp [he, keyOf]
          | none =>
              have hpg : (processGroup g).1 = [ins] := by
                simp only [processGroup]
                rw [if_neg hdel, if_pos hins, hfind, hu]
              rw [hpg, List.mem_singleton] at he
              refine ⟨ins, List.mem_of_find?_eq_some hfind, ?_, ?_⟩ <;>
                simp [he]
    · cases hlast : g.getLast? with
      | some last =>
          have hpg : (processGroup g).1 = [last] := by
            simp only [processGroup]
            rw [if_neg hdel, if_neg hins, hlast]
          rw [hpg, List.mem_singleton] at he
          have hmem : last ∈ g := by
            rw [List.getLast?_eq_head?_reverse] at hlast
            obtain ⟨ys, hys⟩ := List.head?_eq_some_iff.mp hlast
            exact List.mem_reverse.mp (hys ▸ List.mem_cons_self last ys)
          refine ⟨last, hmem, ?_, ?_⟩ <;> simp [he]
      | none =>
          have hpg : (processGroup g).1 = [] := by
            simp only [processGroup]
            rw [if_neg hdel, if_neg hins, hlast]
          rw [hpg] at he
          simp at he
/-- Only the net-zero branch of `processGroup` marks ids, and it marks the
ids of the group's members. -/
theorem processGroup_marked (g : List ChangeLogEntry) (i : Int)
    (hi : i ∈ (processGroup g).2) :
    (g.map (fun e => e.operation)).contains "delete" = true ∧
    (g.map (fun e => e.operation)).head? = some "insert" ∧
    ∃ x ∈ g, x.id = some i := by
  by_cases hdel : (g.map (fun e => e.operation)).contains "delete" = true
  · by_cases hfirst : (g.map (fun e => e.operation)).head? = some "insert"
    · rw [processGroup_netZero g hdel hfirst] at hi
      exact ⟨hdel, hfirst, by simpa [List.mem_filterMap] using hi⟩
    · cases hfind : g.reverse.find? (fun e => e.operation = "delete") with
      | some d =>
          have hpg : (processGroup g).2 = [] := by
            simp only [processGroup]
            rw [if_pos hdel, if_neg hfirst, hfind]
          rw [hpg] at hi
          simp at hi
      | none =>
          have hpg : (processGroup g).2 = [] := by
            simp only [processGroup]
            rw [if_pos hdel, if_neg hfirst, hfind]
          rw [hpg] at hi
          simp at hi
  · by_cases hins : (g.map (fun e => e.operation)).contains "insert" = true
    · cases hfind : g.find? (fun e => e.operation = "insert") with
      | none =>
          have hpg : (processGroup g).2 = [] := by
            simp only [processGroup]
            rw [if_neg hdel, if_pos hins, hfind]
          rw [hpg] at hi
          simp at hi
      | some ins =>
          cases hu : g.reverse.find? (fun e => e.operation = "update") with
          | some u =>
              have hpg : (processGroup g).2 = [] := by
                simp only [processGroup]
                rw [if_neg hdel, if_pos hins, hfind, hu]
              rw [hpg] at hi
              simp at hi
          | none =>
              have hpg : (processGroup g).2 = [] := by
                simp only [processGroup]
                rw [if_neg hdel, if_pos hins, hfind, hu]
              rw [hpg] at hi
              simp at hi
    · cases hlast : g.getLast? with
      | some last =>
          have hpg : (processGroup g).2 = [] := by
            simp only [processGroup]
            rw [if_neg hdel, if_neg hins, hlast]
          rw [hpg] at hi
          simp at hi
      | none =>
          have hpg : (processGroup g).2 = [] := by
            simp only [processGroup]
            rw [if_neg hdel, if_neg hins, hlast]
          rw [hpg] at hi
          simp at hi
theorem flatMap_eq_single {α β : Type} (keys : List α) (h : α → List β)
    (k : α) (hnd : keys.Nodup) (hk : k ∈ keys)
    (hz : ∀ k' ∈ keys, k' ≠ k → h k' = []) :
    keys.flatMap h = h k := by
  induction keys with
  | nil => cases hk
  | cons a keys ih =>
      rw [List.flatMap_cons]
      rcases List.mem_cons.mp hk with rfl | hk'
      · have hnil : keys.flatMap h = [] := by
          refine List.flatMap_eq_nil_iff.mpr ?_
          intro k' hk'
          refine hz k' (List.mem_cons_of_mem _ hk') ?_
          intro hkk
          exact (List.nodup_cons.mp hnd).1 (hkk ▸ hk')
        rw [hnil, List.append_nil]
      · have hak : a ≠ k := by
          intro h'
          exact (List.nodup_cons.mp hnd).1 (h' ▸ hk')
        rw [hz a (List.mem_cons_self _ _) hak, List.nil_append]
        exact ih (List.nodup_cons.mp hnd).2 hk'
          (fun k' h1 h2 => hz k' (List.mem_cons_of_mem _ h1) h2)
/-- The entries a dedup run keeps for one key are exactly what
`processGroup` keeps for that key's group. -/
theorem dedup_kept_filter (changes : List ChangeLogEntry) (k : String)
    (hk : groupOf changes k ≠ []) :
    (deduplicateChanges changes).1.filter (fun e => keyOf e = k) =
      (processGroup (groupOf changes k)).1 := by
  rw [deduplicateChanges_eq]
  simp only
  rw [List.filter_flatMap]
  have hmem : k ∈ firstSeenKeys changes := by
    rw [mem_firstSeenKeys]
    obtain ⟨e, he⟩ := List.exists_mem_of_ne_nil _ hk
    obtain ⟨hec, hek⟩ := mem_groupOf changes k e he
    exact ⟨e, hec, hek⟩
  rw [flatMap_eq_single _ _ k (firstSeenKeys_nodup changes) hmem ?hz]
  case hz =>
    intro k' _ hkk
    rw [List.filter_eq_nil_iff]
    intro e he
    obtain ⟨x, hx, hkey, _⟩ := processGroup_kept _ e he
    have := (mem_groupOf changes k' x hx).2
    simp [hkey, this, hkk]
  · rw [List.filter_eq_self]
    intro e he
    obtain ⟨x, hx, hkey, _⟩ := processGroup_kept _ e he
    have := (mem_groupOf changes k x hx).2
    simp [hkey, this]
/-- C4: a group of unsynced journal entries for one entity that contains a
delete and whose first operation is insert is dropped whole by
deduplication: nothing is emitted for that entity (so no replay call is
made for it) and every entry of the group has its id marked synced. -/
theorem c4_dedup_net_zero (changes : List ChangeLogEntry) (k : String)
    (hdel : ((groupOf changes k).map (fun e => e.operation)).contains "delete" = true)
    (hfirst : ((groupOf changes k).map (fun e => e.operation)).head? = some "insert") :
    (∀ e ∈ (deduplicateChanges changes).1, keyOf e ≠ k) ∧
    (∀ e ∈ groupOf changes k, ∀ i : Int, e.id = some i →
      i ∈ (deduplicateChanges changes).2) := by
  constructor
  · intro e he hkey
    rw [deduplicateChanges_eq] at he
    obtain ⟨k', _, hek'⟩ := List.mem_flatMap.mp he
    obtain ⟨x, hx, hkeq, _⟩ := processGroup_kept _ e hek'
    have hxk : keyOf x = k' := (mem_groupOf changes k' x hx).2
    have hkk : k' = k := by rw [← hkey, hkeq, hxk]
    rw [hkk, processGroup_netZero _ hdel hfirst] at hek'
    simp at hek'
  · intro e he i hei
    rw [deduplicateChanges_eq]
    simp only
    refine List.mem_flatMap.mpr ⟨k, ?_, ?_⟩
    · rw [mem_firstSeenKeys]
      obtain ⟨hec, hek⟩ := mem_groupOf changes k e he
      exact ⟨e, hec, hek⟩
    · rw [processGroup_netZero _ hdel hfirst]
      exact List.mem_filterMap.mpr ⟨e, he, hei⟩
/-- Witness for C4 on the concrete insert-edit-edit-delete journal. -/
theorem c4_dedup_net_zero_witness :
    (∀ e ∈ (deduplicateChanges c4Changes).1, keyOf e ≠ "cue:x") ∧
    (∀ e ∈ groupOf c4Changes "cue:x", ∀ i : Int, e.id = some i →
      i ∈ (deduplicateChanges c4Changes).2) :=
  c4_dedup_net_zero c4Changes "cue:x" (by decide) (by decide)
/-- C5: a non-empty group with no delete reduces to exactly one kept entry:
when the group contains an insert, the kept entry is that insert with its
payload replaced by the last update's payload (or kept as-is when no update
occurred); otherwise it is the group's last entry, an update. -/
theorem c5_dedup_single_entry (changes : List ChangeLogEntry) (k : String)
    (hne : groupOf changes k ≠ [])
    (hnodel : ((groupOf changes k).map (fun e => e.operation)).contains "delete" = false)
    (hops : ∀ e ∈ groupOf changes k,
      e.operation = "insert" ∨ e.operation = "update") :
    ∃ kept,
      (deduplicateChanges changes).1.filter (fun e => keyOf e = k) = [kept] ∧
      ((∃ ins, (groupOf changes k).find? (fun e => e.operation = "insert") = some ins ∧
        (((groupOf changes k).reverse.find? (fun e => e.operation = "update") = none ∧
            kept = ins) ∨
         (∃ u, (groupOf changes k).reverse.find? (fun e => e.operation = "update") = some u ∧
            kept = { ins with payload := u.payload }))) ∨
       (((groupOf changes k).map (fun e => e.operation)).contains "insert" = false ∧
        (groupOf changes k).getLast? = some kept ∧ kept.operation = "update")) := by
  rw [dedup_kept_filter changes k hne]
  have hdel' : ¬ ((groupOf changes k).map (fun e => e.operation)).contains "delete" = true := by
    rw [hnodel]
    simp
  by_cases hins : ((groupOf changes k).map (fun e => e.operation)).contains "insert" = true
  · have hfind : ((groupOf changes k).find? (fun e => e.operation = "insert")).isSome = true := by
      rw [List.find?_isSome]
      rw [List.contains_iff_exists_mem_beq] at hins
      obtain ⟨op, hop, hbeq⟩ := hins
      obtain ⟨x, hx, hxop⟩ := List.mem_map.mp hop
      refine ⟨x, hx, ?_⟩
      simp only [beq_iff_eq] at hbeq
      simp [hxop, ← hbeq]
    obtain ⟨ins, hfind⟩ := Option.isSome_iff_exists.mp hfind
    cases hu : (groupOf changes k).reverse.find? (fun e => e.operation = "update") with
    | some u =>
        refine ⟨{ ins with payload := u.payload }, ?_, Or.inl ⟨ins, hfind, Or.inr ⟨u, rfl, rfl⟩⟩⟩
        simp only [processGroup]
        rw [if_neg hdel', if_pos hins, hfind, hu]
    | none =>
        refine ⟨ins, ?_, Or.inl ⟨ins, hfind, Or.inl ⟨rfl, rfl⟩⟩⟩
        simp only [processGroup]
        rw [if_neg hdel', if_pos hins, hfind, hu]
  · have hlast : ((groupOf changes k).getLast?).isSome = true := by
      rw [List.getLast?_eq_head?_reverse]
      exact List.head?_isSome.mpr (by simp [hne])
    obtain ⟨last, hlast⟩ := Option.isSome_iff_exists.mp hlast
    have hmem : last ∈ groupOf changes k := by
      rw [List.getLast?_eq_head?_reverse] at hlast
      obtain ⟨ys, hys⟩ := List.head?_eq_some_iff.mp hlast
      exact List.mem_reverse.mp (hys ▸ List.mem_cons_self last ys)
    have hop : last.operation = "update" := by
      rcases hops last hmem with h | h
      · exfalso
        apply hins
        rw [List.contains_iff_exists_mem_beq]
        exact ⟨"insert", List.mem_map.mpr ⟨last, hmem, h⟩, by simp⟩
      · exact h
    refine ⟨last, ?_, Or.inr ⟨by simpa using hins, hlast, hop⟩⟩
    simp only [processGroup]
    rw [if_neg hdel', if_neg hins, hlast]
/-- Witness for C5 on the concrete insert-edit-edit journal. -/
theorem c5_dedup_single_entry_witness :
    ∃ kept,
      (deduplicateChanges c5Changes).1.filter (fun e => keyOf e = "cue:x") = [kept] ∧
      ((∃ ins, (groupOf c5Changes "cue:x").find? (fun e => e.operation = "insert") = some ins ∧
        (((groupOf c5Changes "cue:x").reverse.find? (fun e => e.operation = "update") = none ∧
            kept = ins) ∨
         (∃ u, (groupOf c5Changes "cue:x").reverse.find? (fun e => e.operation = "update") = some u ∧
            kept = { ins with payload := u.payload }))) ∨
       (((groupOf c5Changes "cue:x").map (fun e => e.operation)).contains "insert" = false ∧
        (groupOf c5Changes "cue:x").getLast? = some kept ∧ kept.operation = "update")) :=
  c5_dedup_single_entry c5Changes "cue:x" (by decide) (by decide) (by decide)
/-- C7: during replay, idempotent-success status codes count as success:
an insert answered 409 (already exists) is success; a delete answered 404
(already gone) is success; an update answered 404 is success and deletes the
local copy of the cue with change-logging suppressed, so the journal gains
no entry for that deletion. -/
theorem c7_replay_idempotent_success (eIns eDel eUpd : ChangeLogEntry)
    (envI : InsertEnv) (delStatus : Int) (envU : UpdateEnv) (db : LocalDB)
    (hIp : envI.parsed.isSome = true) (hIs : envI.status = 409)
    (hDs : delStatus = 404)
    (hUp : envU.parsed.isSome = true) (hUs : envU.status = 404)
    (hUe : eUpd.entity = "cue") :
    replayInsert eIns envI = .success ∧
    replayDelete eDel delStatus = .success ∧
    replayUpdate eUpd envU db = (.success, deleteCueDb db eUpd.entity_id false) ∧
    (deleteCueDb db eUpd.entity_id false).changeLog = db.changeLog ∧
    (deleteCueDb db eUpd.entity_id false).cues =
      db.cues.filter (fun c => c.fst ≠ eUpd.entity_id) := by
  obtain ⟨dI, hdI⟩ := Option.isSome_iff_exists.mp hIp
  obtain ⟨dU, hdU⟩ := Option.isSome_iff_exists.mp hUp
  refine ⟨?_, ?_, ?_, rfl, rfl⟩
  · simp [replayInsert, hdI, hIs]
  · simp [replayDelete, hDs]
  · simp [replayUpdate, hdU, hUs, hUe]
/-- Witness for C7 at concrete entries, environments, and local store. -/
theorem c7_replay_idempotent_success_witness :
    replayInsert c7Entry { parsed := some c7Dict, status := 409 } = .success ∧
    replayDelete c7Entry 404 = .success ∧
    replayUpdate c7Entry
        { parsed := some c7Dict, status := 404, responseDict := none,
          serverCue := none, keepLocal := none, retryStatus := 0,
          retryDict := none } c7Db =
      (.success, deleteCueDb c7Db c7Entry.entity_id false) ∧
    (deleteCueDb c7Db c7Entry.entity_id false).changeLog = c7Db.changeLog ∧
    (deleteCueDb c7Db c7Entry.entity_id false).cues =
      c7Db.cues.filter (fun c => c.fst ≠ c7Entry.entity_id) :=
  c7_replay_idempotent_success c7Entry c7Entry c7Entry
    { parsed := some c7Dict, status := 409 } 404
    { parsed := some c7Dict, status := 404, responseDict := none,
      serverCue := none, keepLocal := none, retryStatus := 0,
      retryDict := none } c7Db
    (by decide) (by decide) (by decide) (by decide) (by decide) (by decide)
theorem mem_foldl_entryMark (outcome : ChangeLogEntry → ReplayResult)
    (l : List ChangeLogEntry) (acc : List Int) (i : Int) :
    i ∈ l.foldl (fun acc e => entryMark acc e (outcome e)) acc ↔
      i ∈ acc ∨ ∃ e ∈ l, e.id = some i ∧
        (outcome e = .success ∨ outcome e = .conflict) := by
  induction l generalizing acc with
  | nil => simp
  | cons e l ih =>
      rw [List.foldl_cons, ih]
      have hm : i ∈ entryMark acc e (outcome e) ↔
          i ∈ acc ∨ (e.id = some i ∧
            (outcome e = .success ∨ outcome e = .conflict)) := by
        cases ho : outcome e <;>
          simp [entryMark, ho, Option.mem_toList, Option.mem_def]
      rw [hm]
      constructor
      · rintro ((h | h) | ⟨x, hx, hxp⟩)
        · exact Or.inl h
        · exact Or.inr ⟨e, List.mem_cons_self e l, h⟩
        · exact Or.inr ⟨x, List.mem_cons_of_mem e hx, hxp⟩
      · rintro (h | ⟨x, hx, hxp⟩)
        · exact Or.inl (Or.inl h)
        · rcases List.mem_cons.mp hx with rfl | hx'
          · exact Or.inl (Or.inr hxp)
          · exact Or.inr ⟨x, hx', hxp⟩
/-- Distinct journal rows never share an id ( autoincrement primary key). -/
theorem entry_id_injective (changes : List ChangeLogEntry)
    (hnodup : (changes.filterMap (fun e => e.id)).Nodup)
    (x y : ChangeLogEntry) (hx : x ∈ changes) (hy : y ∈ changes) (i : Int)
    (hxi : x.id = some i) (hyi : y.id = some i) : x = y := by
  induction changes with
  | nil => cases hx
  | cons a l ih =>
      cases ha : a.id with
      | none =>
          rw [List.filterMap_cons_none (by simpa using ha)] at hnodup
          rcases List.mem_cons.mp hx with rfl | hx'
          · rw [ha] at hxi; cases hxi
          · rcases List.mem_cons.mp hy with rfl | hy'
            · rw [ha] at hyi; cases hyi
            · exact ih hnodup hx' hy'
      | some j =>
          rw [List.filterMap_cons_some (by simpa using ha)] at hnodup
          have hnd := List.nodup_cons.mp hnodup
          rcases List.mem_cons.mp hx with rfl | hx' <;>
            rcases List.mem_cons.mp hy with rfl | hy'
          · rfl
          · exfalso
            rw [ha] at hxi
            have hji : j = i := by simpa using hxi
            exact hnd.1 (hji ▸ List.mem_filterMap.mpr ⟨y, hy', hyi⟩)
          · exfalso
            rw [ha] at hyi
            have hji : j = i := by simpa using hyi
            exact hnd.1 (hji ▸ List.mem_filterMap.mpr ⟨x, hx', hxi⟩)
          · exact ih hnd.2 hx' hy'
/-- An id marked by the dedup step belongs to an entry of a net-zero
group. -/
theorem mem_dedup_marked (changes : List ChangeLogEntry) (i : Int)
    (hi : i ∈ (deduplicateChanges changes).2) :
    ∃ x ∈ changes, x.id = some i ∧ isNetZeroGroup changes (keyOf x) := by
  rw [deduplicateChanges_eq] at hi
  obtain ⟨k, _, hik⟩ := List.mem_flatMap.mp hi
  obtain ⟨hdel, hfirst, x, hx, hxi⟩ := processGroup_marked _ i hik
  obtain ⟨hxc, hxk⟩ := mem_groupOf changes k x hx
  refine ⟨x, hxc, hxi, ?_⟩
  rw [isNetZeroGroup, hxk]
  exact ⟨hdel, hfirst⟩
/-- C10: a journal entry that deduplication discarded (no kept entry
carries its id) and that is not part of a net-zero insert-then-delete group
is never marked synced by the sync cycle; since purge removes only synced
rows, it remains in the journal and is returned by the next cycle's
unsynced query. Conversely every id the cycle marks belongs to a net-zero
group member or to a kept (actually replayed) entry whose outcome was
success or conflict. -/
theorem c10_discarded_stay_unsynced (changes : List ChangeLogEntry)
    (outcome : ChangeLogEntry → ReplayResult) (e : ChangeLogEntry)
    (hnodup : (changes.filterMap (fun x => x.id)).Nodup)
    (hsy : ∀ x ∈ changes, x.synced = 0)
    (he : e ∈ changes)
    (hnz : ¬ isNetZeroGroup changes (keyOf e))
    (hdisc : ∀ kept ∈ (deduplicateChanges changes).1, kept.id ≠ e.id) :
    (∀ i : Int, e.id = some i → i ∉ performSyncMarkedIds changes outcome) ∧
    e ∈ unsyncedOf (journalAfterSync changes outcome) ∧
    (∀ i ∈ performSyncMarkedIds changes outcome,
      (∃ x ∈ changes, x.id = some i ∧ isNetZeroGroup changes (keyOf x)) ∨
      (∃ kept ∈ (deduplicateChanges changes).1, kept.id = some i ∧
        (outcome kept = .success ∨ outcome kept = .conflict))) := by
  have hmarks : ∀ i : Int, i ∈ performSyncMarkedIds changes outcome ↔
      i ∈ (deduplicateChanges changes).2 ∨
      ∃ kept ∈ ((deduplicateChanges changes).1.filter (fun x => x.entity = "character") ++
                (deduplicateChanges changes).1.filter (fun x => x.entity = "cue")),
        kept.id = some i ∧ (outcome kept = .success ∨ outcome kept = .conflict) := by
    intro i
    simp only [performSyncMarkedIds]
    rw [List.mem_append, mem_foldl_entryMark]
    simp
  have hc1 : ∀ i : Int, e.id = some i →
      i ∉ performSyncMarkedIds changes outcome := by
    intro i hei hmem
    rcases (hmarks i).mp hmem with hdm | ⟨kept, hkmem, hkid, _⟩
    · obtain ⟨x, hxc, hxi, hxnz⟩ := mem_dedup_marked changes i hdm
      have hxe : x = e := entry_id_injective changes hnodup x e hxc he i hxi hei
      exact hnz (hxe ▸ hxnz)
    · have hkd : kept ∈ (deduplicateChanges changes).1 := by
        rcases List.mem_append.mp hkmem with h | h
        · exact (List.mem_filter.mp h).1
        · exact (List.mem_filter.mp h).1
      exact hdisc kept hkd (by rw [hkid, hei])
  refine ⟨hc1, ?_, ?_⟩
  · have hsurv : e ∈ markSyncedDb changes (performSyncMarkedIds changes outcome) := by
      unfold markSyncedDb
      refine List.mem_map.mpr ⟨e, he, ?_⟩
      cases hei : e.id with
      | none => simp [hei]
      | some i =>
          have hcont : (performSyncMarkedIds changes outcome).contains i = false := by
            rw [← Bool.not_eq_true]
            simpa using hc1 i hei
          simp [hei, hcont, hc1 i hei]
    unfold unsyncedOf journalAfterSync clearSyncedChangesDb
    refine List.mem_filter.mpr ⟨List.mem_filter.mpr ⟨hsurv, ?_⟩, ?_⟩ <;>
      simp [hsy e he]
  · intro i hi
    rcases (hmarks i).mp hi with hdm | ⟨kept, hkmem, hkid, hout⟩
    · exact Or.inl (mem_dedup_marked changes i hdm)
    · refine Or.inr ⟨kept, ?_, hkid, hout⟩
      rcases List.mem_append.mp hkmem with h | h
      · exact (List.mem_filter.mp h).1
      · exact (List.mem_filter.mp h).1
/-- Witness for C10: the folded update stays unsynced and in the journal
even though every kept entry replays successfully. -/
theorem c10_discarded_stay_unsynced_witness :
    (∀ i : Int, c10Entry.id = some i →
      i ∉ performSyncMarkedIds c5Changes c10Outcome) ∧
    c10Entry ∈ unsyncedOf (journalAfterSync c5Changes c10Outcome) ∧
    (∀ i ∈ performSyncMarkedIds c5Changes c10Outcome,
      (∃ x ∈ c5Changes, x.id = some i ∧ isNetZeroGroup c5Changes (keyOf x)) ∨
      (∃ kept ∈ (deduplicateChanges c5Changes).1, kept.id = some i ∧
        (c10Outcome kept = .success ∨ c10Outcome kept = .conflict))) :=
  c10_discarded_stay_unsynced c5Changes c10Outcome c10Entry
    (by decide) (by decide) (by decide) (by decide) (by decide)
/-- Witness for the amended C6: two successful writes at strictly increasing
clock readings produce strictly increasing stored version tokens. -/
theorem c6_amended_updated_at_monotone_witness :
    ∃ c1 c2,
      (putCue c6Body (some sampleCue) "2024-01-01T12:00:00.000Z").2 = some c1 ∧
      (putCue c6Body ((putCue c6Body (some sampleCue) "2024-01-01T12:00:00.000Z").2)
          "2024-01-01T13:00:00.000Z").2 = some c2 ∧
      c1.updated_at = "2024-01-01T12:00:00.000Z" ∧
      c2.updated_at = "2024-01-01T13:00:00.000Z" ∧
      c1.updated_at < c2.updated_at ∧ c1.updated_at ≠ c2.updated_at :=
  c6_amended_updated_at_monotone c6Body c6Body (some sampleCue)
    "2024-01-01T12:00:00.000Z" "2024-01-01T13:00:00.000Z"
    (by decide) (by decide)
    (by rw [String.lt_iff_toList_lt]; decide)
end CueHub
